import Mathlib

/-!
Shallow embedding of `pfmatch/apps/soptimizer.py` (class `SOptimizer`) for
checking the natural-language specification against the code.

Conventions of the embedding:
* Python integers are `Nat`/`Int`; configuration integers that the code
  compares against `> 0` sentinels (`validate_every_iterations`,
  `save_every_iterations`, `save_every_epochs`) are `Int`.
* `float` quantities relevant to the claims (loss values, the fractional
  split ratio, the fractional epoch count) are modelled as `Rat`; the claims
  settled here depend only on exact small-denominator arithmetic, where the
  Python float computations agree with the rational ones.
* Fallible construction steps return `Except`; the error constructors record
  which concrete Python exception the code raises.
* Strings are `List Char` at the core (ASCII inputs; the regex `\d` is
  modelled as `Char.isDigit`).
-/

namespace SOpt

/-! ### Checkpoint-filename regex (construction, resume branch)

Source, `SOptimizer.__init__`:
`re.findall(r'iteration-(\d+)-epoch-(\d+).ckpt', cfg['model']['ckpt_file'])[0]`
Note the unescaped `.` before `ckpt`: in the source pattern it is the regex
any-character-except-newline atom.  `findall` scans every start position left
to right; at each position the literal pieces must match exactly, each
`(\d+)` is greedy with backtracking, and `[0]` keeps the leftmost match. -/

/-- Literal chars of the regex piece and filename piece `iteration-`. -/
def litIteration : List Char :=
  ['i', 't', 'e', 'r', 'a', 't', 'i', 'o', 'n', '-']

/-- Literal chars of the regex piece and filename piece `-epoch-`. -/
def litEpoch : List Char := ['-', 'e', 'p', 'o', 'c', 'h', '-']

/-- Literal chars of the regex piece `ckpt` (what follows the dot atom). -/
def litCkpt : List Char := ['c', 'k', 'p', 't']

/-- Literal chars of the filename piece `.ckpt`. -/
def litDotCkpt : List Char := ['.', 'c', 'k', 'p', 't']

/-- Match a literal: `dropLit pat l` returns the rest of `l` after the
leading occurrence of `pat`, or `none` when `l` does not start with `pat`. -/
def dropLit : List Char → List Char → Option (List Char)
  | [], l => some l
  | _ :: _, [] => none
  | p :: ps, c :: cs => if c = p then dropLit ps cs else none

/-- Greedy `\d+`: split off the maximal leading run of decimal digits. -/
def takeDigits : List Char → List Char × List Char
  | [] => ([], [])
  | c :: cs =>
    if c.isDigit then
      let r := takeDigits cs
      (c :: r.1, r.2)
    else ([], c :: cs)

/-- The dot atom of the pattern.  In the source regex the dot is unescaped,
so it matches any character except a newline (`dotAny = true`).  With
`dotAny = false` this is instead a literal `.`, which is what the
specification's written pattern `iteration-<digits>-epoch-<digits>.ckpt`
denotes; that variant exists only to state the spec's claim. -/
def dotMatch (dotAny : Bool) (c : Char) : Bool :=
  if dotAny then c != '\n' else c = '.'

/-- Match the pattern tail `.ckpt`: one dot-atom character then `ckpt`. -/
def tailCkpt (dotAny : Bool) : List Char → Bool
  | [] => false
  | c :: rest => dotMatch dotAny c && (dropLit litCkpt rest).isSome

/-- Greedy backtracking for the second `(\d+)` group: `ds` is the maximal
digit run after `-epoch-` and `rest` what follows it.  The group keeps the
longest prefix of `ds` (tried longest first, at least one digit) such that
the remaining characters match `.ckpt`. -/
def group2Len (dotAny : Bool) (ds rest : List Char) : Nat → Option Nat
  | 0 => none
  | k + 1 =>
    if tailCkpt dotAny (ds.drop (k + 1) ++ rest) then some (k + 1)
    else group2Len dotAny ds rest k

/-- Decimal value of a digit character (`int` applied to digit strings). -/
def digitVal (c : Char) : Nat := c.toNat - 48

/-- Value of a digit string, as Python `int()` computes it (leading zeros
allowed). -/
def strValNat (l : List Char) : Nat :=
  l.foldl (fun a c => a * 10 + digitVal c) 0

/-- Try to match `iteration-(\d+)-epoch-(\d+).ckpt` at the head of `l`,
returning the two groups through `int()`.  The first group needs no
backtracking: the character after it in the pattern is the literal `-`,
which is not a digit, so only the maximal digit run can be followed by a
match of the rest. -/
def matchAt (dotAny : Bool) (l : List Char) : Option (Nat × Nat) :=
  match dropLit litIteration l with
  | none => none
  | some r1 =>
    let t1 := takeDigits r1
    if t1.1.isEmpty then none
    else
      match dropLit litEpoch t1.2 with
      | none => none
      | some r2 =>
        let t2 := takeDigits r2
        if t2.1.isEmpty then none
        else
          match group2Len dotAny t2.1 t2.2 t2.1.length with
          | none => none
          | some k => some (strValNat t1.1, strValNat (t2.1.take k))

/-- Scan start positions left to right and keep the leftmost match: the
semantics of `re.findall(...)[0]` for this pattern. -/
def reSearch (dotAny : Bool) : List Char → Option (Nat × Nat)
  | [] => none
  | l :: ls =>
    match matchAt dotAny (l :: ls) with
    | some r => some r
    | none => reSearch dotAny ls

/-- Resume parsing applied by the constructor:
`re.findall(r'iteration-(\d+)-epoch-(\d+).ckpt', path)[0]` followed by
`int` on both groups, `none` when `findall` returns the empty list. -/
def findIterEpoch (s : String) : Option (Nat × Nat) :=
  reSearch true s.toList

/-- Matching of the pattern the specification writes,
`iteration-<digits>-epoch-<digits>.ckpt`, with the dot a literal dot (an
occurrence anywhere in the path).  Used only to state spec-side claims. -/
def specPatternFind (s : String) : Option (Nat × Nat) :=
  reSearch false s.toList

/-! ### Construction: resume handling (`SOptimizer.__init__`, lines 59-66)

Source:
`self.iteration, self.epoch = 0, 0`
`if cfg['train'].get('resume') and cfg['model']['ckpt_file']:`
`    iteration, epoch = re.findall(r'iteration-(\d+)-epoch-(\d+).ckpt', cfg['model']['ckpt_file'])[0]`
`    self.iteration = int(iteration)` / `self.epoch = int(epoch)` -/

/-- The slice of the configuration the resume branch reads. -/
structure ResumeCfg where
  /-- Truthiness of `cfg['train'].get('resume')`. -/
  resume : Bool
  /-- Whether `'ckpt_file'` is a key of `cfg['model']` (the code indexes it
  directly, so a missing key raises `KeyError`). -/
  hasCkptKey : Bool
  /-- The value under the key when present: `none` models Python `None`. -/
  ckptFile : Option String
deriving DecidableEq

/-- Errors the resume branch of the constructor can raise. -/
inductive InitError where
  /-- `KeyError` from `cfg['model']['ckpt_file']` when the key is absent. -/
  | keyError : InitError
  /-- `IndexError` from `findall(...)[0]` on the empty list when the path
  contains no match of the pattern: the spec's FormatError. -/
  | formatError : InitError
deriving DecidableEq

/-- Counters `(iteration, epoch)` produced by the constructor's resume
branch.  Python's `and` short-circuits: a falsy `resume` skips the branch;
a truthy `resume` evaluates `cfg['model']['ckpt_file']`, raising `KeyError`
when the key is missing; `None` and the empty string are falsy and also
skip the branch. -/
def resumeCounters (c : ResumeCfg) : Except InitError (Nat × Nat) :=
  if c.resume then
    if c.hasCkptKey then
      match c.ckptFile with
      | none => Except.ok (0, 0)
      | some s =>
        if s = "" then Except.ok (0, 0)
        else
          match findIterEpoch s with
          | some ie => Except.ok ie
          | none => Except.error InitError.formatError
    else Except.error InitError.keyError
  else Except.ok (0, 0)

/-! ### Construction: learning-rate scheduler (`__init__`, lines 70-81)

Source:
`lrs = cfg['train'].get('lr_scheduler', dict())`
`if lrs.get('name'):`
`    if not hasattr(torch.optim.lr_scheduler, lrs['name']):`
`        raise RuntimeError(f'Learning rate scheduler not available: {lrs["Name"]}')`
The f-string of the `raise` indexes `lrs["Name"]` (capital N), which Python
evaluates before constructing the `RuntimeError`; on a configuration without
a literal `'Name'` key that lookup raises `KeyError('Name')` instead. -/

/-- The slice of `cfg['train']['lr_scheduler']` the scheduler branch reads. -/
structure SchedCfg where
  /-- Value of `lrs.get('name')` (`none` models both an absent key and
  Python `None`). -/
  name : Option String
  /-- Value under the literal key `'Name'` when present: the key the error
  message f-string indexes. -/
  nameCap : Option String
deriving DecidableEq

/-- Errors the scheduler branch can raise. -/
inductive SchedError where
  /-- `KeyError('Name')` raised while building the error message. -/
  | keyErrorName : SchedError
  /-- The intended `RuntimeError('Learning rate scheduler not available')`:
  the spec's ConfigError.  Reached only when a literal `'Name'` key exists. -/
  | notAvailable : SchedError
deriving DecidableEq

/-- Scheduler names torch exposes under `torch.optim.lr_scheduler` (the
external collaborator namespace `hasattr` consults); an under-approximation
listing the documented scheduler classes. -/
def torchSchedulers : List String :=
  ["LambdaLR", "MultiplicativeLR", "StepLR", "MultiStepLR", "ConstantLR",
   "LinearLR", "ExponentialLR", "PolynomialLR", "CosineAnnealingLR",
   "ChainedScheduler", "SequentialLR", "CyclicLR", "OneCycleLR",
   "CosineAnnealingWarmRestarts", "ReduceLROnPlateau", "LRScheduler"]

/-- Scheduler configuration step of the constructor.  `known` is the
`hasattr(torch.optim.lr_scheduler, ·)` oracle.  Returns the name of the
constructed scheduler, or `none` when no scheduler is configured.  A falsy
`lrs.get('name')` (absent key, `None`, or empty string) skips the branch. -/
def configureScheduler (known : String → Bool) (lrs : Option SchedCfg) :
    Except SchedError (Option String) :=
  match lrs with
  | none => Except.ok none
  | some c =>
    match c.name with
    | none => Except.ok none
    | some n =>
      if n = "" then Except.ok none
      else if known n then Except.ok (some n)
      else
        match c.nameCap with
        | some _ => Except.error SchedError.notAvailable
        | none => Except.error SchedError.keyErrorName

/-! ### Construction: dataset split (`__init__`, lines 46-55)

Source:
`generator = torch.Generator().manual_seed(cfg['train'].get('seed', 0))`
`train, val = random_split(dataset, [1-val_split, val_split], generator=generator)`
`torch.utils.data.random_split` with fractional lengths takes the floor of
each fraction times the dataset size and hands the remainder out one item at
a time round-robin, then partitions a seeded `randperm` of the indices. -/

/-- Fresh-generator seeding, `torch.Generator().manual_seed(seed)`: the
generator state is a function of the configured seed alone. -/
def manualSeed (seed : Nat) : Nat := seed

/-- Subset sizes `random_split` assigns to `[1 - v, v]` on `n` samples. -/
def randomSplitSizes (n : Nat) (v : Rat) : Nat × Nat :=
  let a := (Rat.floor ((1 - v) * (n : Rat))).toNat
  let b := (Rat.floor (v * (n : Rat))).toNat
  let r := n - (a + b)
  (a + (r + 1) / 2, b + r / 2)

/-- Construction-time split of the dataset index range.  `randperm` is the
external seeded permutation (a function of generator state and size);
`ambientRng` is the ambient global random state of the process, which the
code never consults: the split is computed from the freshly seeded
generator. -/
def constructSplit (randperm : Nat → Nat → List Nat) (n : Nat) (v : Rat)
    (seed : Nat) (ambientRng : Nat) : List Nat × List Nat :=
  let g := manualSeed seed
  let sizes := randomSplitSizes n v
  let perm := randperm g n
  (perm.take sizes.1, (perm.drop sizes.1).take sizes.2)

/-- Batches per epoch of a `DataLoader` over `n` samples with the given
batch size (`drop_last` defaults to `False`, so the last short batch
counts). -/
def numBatches (n batchSize : Nat) : Nat := (n + batchSize - 1) / batchSize

/-! ### The training loop (`SOptimizer.train`, lines 151-215)

The loop is embedded as a deterministic transition system over the state
the claims observe.  Loss values, tensors and wall-clock times do not feed
back into control flow, so they are not part of the state; ghost counters
(`nUpdates`, `nValidations`, `nSaves`, `nSchedSteps`, `nFullPasses`)
instrument the observable events.  `epoch` is passed read-only to the batch
loop — the source never assigns `self.epoch` inside the `for` — and is
threaded by the epoch loop. -/

/-- The metric columns of the per-batch record, source line 178. -/
def metricCols : List String :=
  ["iter", "epoch", "loss", "val_loss", "lr", "ttrain", "twait"]

/-- One row of the metric log: the columns passed to `logger.record`, the
counters recorded, and whether the recorded `val_loss` was still the
`torch.nan` sentinel. -/
structure LogRow where
  /-- Column names passed to `logger.record`. -/
  cols : List String
  /-- Recorded `self.iteration`. -/
  iter : Nat
  /-- Recorded `self.epoch`. -/
  epoch : Nat
  /-- Whether the recorded `val_loss` was the not-a-number sentinel. -/
  valLossIsNan : Bool
deriving DecidableEq

/-- Training hyperparameters read from `cfg['train']` plus the batch count
of the train loader.  `max_epochs` and `max_iterations` default to
`int(1e20)`; the periodic triggers default to `-1` (disabled) except
`validate_every_iterations`, which defaults to the loader's batch count. -/
structure TParams where
  /-- Value of `max_iterations`. -/
  iterationMax : Nat
  /-- Value of `max_epochs`. -/
  epochMax : Nat
  /-- Value of `validate_every_iterations`. -/
  validateEvery : Int
  /-- Value of `save_every_iterations`. -/
  saveEveryIterations : Int
  /-- Value of `save_every_epochs`. -/
  saveEveryEpochs : Int
  /-- Batches per epoch of `self.dataloader['train']`. -/
  nBatches : Nat
  /-- Whether `self.scheduler` is configured. -/
  hasScheduler : Bool

/-- Default for `max_epochs` and `max_iterations`: `int(1e20)`. -/
def defaultMaxLimit : Nat := 10 ^ 20

/-- State mutated by the batch loop, together with ghost event counters. -/
structure BState where
  /-- Counter `self.iteration`. -/
  iteration : Nat
  /-- Whether the local `val_loss` still holds its initial `torch.nan`. -/
  valLossIsNan : Bool
  /-- Ghost: rows appended by `logger.record`, in order. -/
  log : List LogRow
  /-- Ghost: optimizer updates performed (`self.opt.step()` calls). -/
  nUpdates : Nat
  /-- Ghost: `self.validate()` calls. -/
  nValidations : Nat
  /-- Ghost: `self.save()` calls (checkpoint writes). -/
  nSaves : Nat
  /-- Ghost: `self.scheduler.step(val_loss)` calls. -/
  nSchedSteps : Nat
  /-- Ghost: completed full passes over the train loader. -/
  nFullPasses : Nat
deriving DecidableEq

/-- One iteration of the batch loop, source lines 164-201, in source order:
increment `iteration`; step + backprop + optimizer update; `logger.record`
of the seven columns (with `val_loss` as it was before any validation this
batch); periodic validation, updating `val_loss` and stepping the scheduler
if configured; periodic save; finally the `iteration_max <= iteration`
check that sets `stop_training` and breaks (second return component). -/
def runBatch (p : TParams) (epoch : Nat) (s : BState) : BState × Bool :=
  let it := s.iteration + 1
  let s1 : BState :=
    { s with
      iteration := it
      nUpdates := s.nUpdates + 1
      log := s.log ++
        [{ cols := metricCols, iter := it, epoch := epoch,
           valLossIsNan := s.valLossIsNan }] }
  let s2 : BState :=
    if 0 < p.validateEvery ∧ (it : Int) % p.validateEvery = 0 then
      { s1 with
        nValidations := s1.nValidations + 1
        valLossIsNan := false
        nSchedSteps := s1.nSchedSteps + (if p.hasScheduler then 1 else 0) }
    else s1
  let s3 : BState :=
    if 0 < p.saveEveryIterations ∧ (it : Int) % p.saveEveryIterations = 0 then
      { s2 with nSaves := s2.nSaves + 1 }
    else s2
  (s3, decide (p.iterationMax ≤ it))

/-- The batch loop over the remaining batches of the epoch; stops early
when a batch sets `stop_training`. -/
def runBatches (p : TParams) (epoch : Nat) : Nat → BState → BState × Bool
  | 0, s => (s, false)
  | b + 1, s =>
    let r := runBatch p epoch s
    if r.2 then (r.1, true) else runBatches p epoch b r.1

/-- The epoch loop, source lines 160-211.  The first argument is fuel
bounding the number of loop entries: every recursive call increments
`epoch` under the guard `epoch < p.epochMax`, so `p.epochMax + 1 - epoch`
entries always suffice (`runEpochs_fuel_stable` below makes the
sufficiency precise).  Per entry: check `iteration < iteration_max` and
`epoch < epoch_max`; run the batch loop; if it broke out, exit; otherwise
increment `epoch` and, when `save_every_epochs * epoch > 0` and `epoch`
divides evenly, save.  The ghost `nFullPasses` counts batch loops that
consumed every batch of the loader. -/
def runEpochs (p : TParams) : Nat → Nat → BState → Nat × BState
  | 0, epoch, s => (epoch, s)
  | f + 1, epoch, s =>
    if s.iteration < p.iterationMax ∧ epoch < p.epochMax then
      let r := runBatches p epoch p.nBatches s
      let s1 : BState :=
        if r.1.nUpdates - s.nUpdates = p.nBatches then
          { r.1 with nFullPasses := r.1.nFullPasses + 1 }
        else r.1
      if r.2 then (epoch, s1)
      else
        let e2 := epoch + 1
        let s2 : BState :=
          if 0 < p.saveEveryEpochs * (e2 : Int) ∧
              (e2 : Int) % p.saveEveryEpochs = 0 then
            { s1 with nSaves := s1.nSaves + 1 }
          else s1
        runEpochs p f e2 s2
    else (epoch, s)

/-- Fresh batch-loop state at the start of `train()`: counters from
construction, the local `val_loss` set to `torch.nan`, no events yet. -/
def initBState (it0 : Nat) : BState :=
  { iteration := it0, valLossIsNan := true, log := [], nUpdates := 0,
    nValidations := 0, nSaves := 0, nSchedSteps := 0, nFullPasses := 0 }

/-- The whole `train()` call starting from counters `(it0, epoch0)`,
returning the final `(epoch, state)`. -/
def train (p : TParams) (it0 epoch0 : Nat) : Nat × BState :=
  runEpochs p (p.epochMax + 1) epoch0 (initBState it0)

/-! ### validate() (lines 226-234) and save() (lines 218-224) -/

/-- Trainer state visible to `validate()`: the counters and the optimizer
state (abstract, of any type `Opt`). -/
structure VState (Opt : Type) where
  /-- Counter `self.iteration`. -/
  iteration : Nat
  /-- Counter `self.epoch`. -/
  epoch : Nat
  /-- The optimizer's internal state. -/
  optState : Opt

/-- The accumulation loop of `validate()`: `val_loss = 0` then
`val_loss += step(batch)[-1]` over the validation loader. -/
def validateAccum : List Rat → Rat → Rat
  | [], acc => acc
  | l :: ls, acc => validateAccum ls (acc + l)

/-- The whole `validate()` call: under `torch.no_grad()` it sums the
per-batch losses and divides by `len(self.dataloader['val'])`; it assigns
no attribute of `self` and performs no optimizer update, so the trainer
state comes back unchanged. -/
def validateRun {Opt : Type} (s : VState Opt) (valLosses : List Rat) :
    VState Opt × Rat :=
  (s, validateAccum valLosses 0 / (valLosses.length : Rat))

/-- Count resolution of `save(count=None)`: the default is
`self.iteration / len(self.dataloader['train'].dataset)`. -/
def saveCount (iteration trainDatasetLen : Nat) (count : Option Rat) : Rat :=
  match count with
  | some c => c
  | none => (iteration : Rat) / (trainDatasetLen : Rat)

/-- The count the per-epoch save site passes explicitly, source line 211:
`count=self.iteration/len(self.dataloader['train'].dataset)`. -/
def epochSaveCount (iteration trainDatasetLen : Nat) : Rat :=
  (iteration : Rat) / (trainDatasetLen : Rat)

/-- Python `'%0wd' % n` for `w = 6` and `w = 4`: decimal digits of `n`,
left-padded with zeros to width `w`.  `natDigitsCore` carries fuel that
strictly dominates `n`, so it is never exhausted. -/
def natDigitsCore : Nat → Nat → List Char → List Char
  | 0, _, acc => acc
  | f + 1, n, acc =>
    if n < 10 then Nat.digitChar n :: acc
    else natDigitsCore f (n / 10) (Nat.digitChar (n % 10) :: acc)

/-- Decimal digit characters of `n` (Python `'%d' % n`). -/
def natDigits (n : Nat) : List Char := natDigitsCore (n + 1) n []

/-- Zero-padding to width `w` (Python `'%0wd' % n`). -/
def fmtPad (w n : Nat) : List Char :=
  List.replicate (w - (natDigits n).length) '0' ++ natDigits n

/-- Characters of the checkpoint filename `save()` writes, source line 223:
`'iteration-%06d-epoch-%04d.ckpt' % (self.iteration, self.epoch)` (the
basename; `os.path.join` prepends the log directory). -/
def ckptFilenameChars (iteration epoch : Nat) : List Char :=
  litIteration ++ fmtPad 6 iteration ++ litEpoch ++ fmtPad 4 epoch ++
    litDotCkpt

/-- The end-to-end scenario of spec section 8: a dataset of 100 samples,
batch size 10, `validate_every_iterations = 10`, `max_iterations = 10`,
`save_every_iterations = -1`, everything else at its default
(`validation_split = 0.1`, `max_epochs = int(1e20)`,
`save_every_epochs = -1`, no scheduler).  The train loader iterates the
train subset of the split, so its batch count comes from
`random_split(dataset, [1 - 0.1, 0.1])`. -/
def scenarioParams : TParams :=
  { iterationMax := 10
    epochMax := defaultMaxLimit
    validateEvery := 10
    saveEveryIterations := -1
    saveEveryEpochs := -1
    nBatches := numBatches (randomSplitSizes 100 (1 / 10)).1 10
    hasScheduler := false }

end SOpt

deriving instance DecidableEq for Except

namespace SOpt

/-! ## Helper lemmas -/

/-- The accumulation loop of `validate()` computes the list sum. -/
theorem validateAccum_eq_sum (l : List Rat) (a : Rat) :
    validateAccum l a = a + l.sum := by
  induction l generalizing a with
  | nil => simp [validateAccum]
  | cons x xs ih => simp [validateAccum, ih, List.sum_cons]; ring

/-- Subset sizes of `random_split` for 100 samples at the default
`validation_split = 0.1`: 90 train samples and 10 validation samples. -/
theorem randomSplitSizes_100 : randomSplitSizes 100 (1 / 10) = (90, 10) := by
  unfold randomSplitSizes
  have h1 : ((1 : Rat) - 1 / 10) * ((100 : Nat) : Rat) = (90 : Rat) := by
    norm_num
  have h2 : ((1 : Rat) / 10) * ((100 : Nat) : Rat) = (10 : Rat) := by
    norm_num
  rw [h1, h2]
  rfl

/-- The scenario parameters with the train-loader batch count evaluated:
90 train samples at batch size 10 give 9 batches per epoch. -/
theorem scenarioParams_eval :
    scenarioParams =
      ⟨10, defaultMaxLimit, 10, -1, -1, 9, false⟩ := by
  unfold scenarioParams
  rw [randomSplitSizes_100]
  rfl

/-! ## Claim theorems -/

/-- C6: `validate()` leaves `iteration`, `epoch` and the optimizer state
unchanged and returns the summed per-batch loss divided by the number of
batches in the validation loader. -/
theorem C6_validate_frame {Opt : Type} (s : VState Opt) (ls : List Rat)
    (h : ls ≠ []) :
    (validateRun s ls).1.iteration = s.iteration ∧
    (validateRun s ls).1.epoch = s.epoch ∧
    (validateRun s ls).1.optState = s.optState ∧
    (validateRun s ls).2 = ls.sum / (ls.length : Rat) := by
  refine ⟨rfl, rfl, rfl, ?_⟩
  show validateAccum ls 0 / (ls.length : Rat) = _
  rw [validateAccum_eq_sum, zero_add]

/-- Witness for C6 at a two-batch validation loader. -/
theorem C6_validate_frame_witness :
    ([(2 : Rat), 4] : List Rat) ≠ [] ∧
    (validateRun (⟨5, 7, 3⟩ : VState Nat) [(2 : Rat), 4]).1.iteration = 5 ∧
    (validateRun (⟨5, 7, 3⟩ : VState Nat) [(2 : Rat), 4]).2 =
      ([(2 : Rat), 4] : List Rat).sum /
        ((([(2 : Rat), 4] : List Rat).length : Nat) : Rat) := by
  have h : ([(2 : Rat), 4] : List Rat) ≠ [] := by simp
  exact ⟨h, (C6_validate_frame ⟨5, 7, 3⟩ [(2 : Rat), 4] h).1,
    (C6_validate_frame ⟨5, 7, 3⟩ [(2 : Rat), 4] h).2.2.2⟩

/-- C9: the construction-time split depends only on the configuration
(dataset size, split ratio, seed) and the external permutation function,
never on the ambient global random state: two constructions at any two
ambient states produce identical train/validation partitions. -/
theorem C9_split_deterministic (randperm : Nat → Nat → List Nat) (n : Nat)
    (v : Rat) (seed : Nat) (g₁ g₂ : Nat) :
    constructSplit randperm n v seed g₁ = constructSplit randperm n v seed g₂ :=
  rfl

/-- C10: the count the per-epoch save site passes explicitly equals the
default count `save()` computes when the argument is omitted; both are
`iteration / len(dataloader['train'].dataset)`. -/
theorem C10_save_count_agree (it n : Nat) :
    saveCount it n (some (epochSaveCount it n)) = saveCount it n none := rfl

/-- C1 counterexample: the path `iteration-1-epoch-2Xckpt` does not match
the spec's written pattern `iteration-<digits>-epoch-<digits>.ckpt` (it
contains no `.ckpt` at all), yet construction does not fail: the unescaped
dot of the source regex matches the `X`, and the counters resume as
`(1, 2)`. -/
theorem C1_resume_counterexample :
    ¬ (specPatternFind "iteration-1-epoch-2Xckpt" = none →
        resumeCounters
          { resume := true, hasCkptKey := true,
            ckptFile := some "iteration-1-epoch-2Xckpt" } =
          Except.error InitError.formatError) := by
  intro h
  exact absurd (h (by decide)) (by decide)

/-- C1 amended: the conforming filename `iteration-000123-epoch-0004.ckpt`
resumes the counters as `(123, 4)`; and for every nonempty path in which
the source regex `iteration-(\d+)-epoch-(\d+).ckpt` (dot = any character
except newline, searched at every position) finds no match, construction
fails with the FormatError (`findall(...)[0]` on an empty list). -/
theorem C1_resume_parse :
    resumeCounters
      { resume := true, hasCkptKey := true,
        ckptFile := some "iteration-000123-epoch-0004.ckpt" } =
      Except.ok (123, 4) ∧
    ∀ s : String, s ≠ "" → findIterEpoch s = none →
      resumeCounters { resume := true, hasCkptKey := true, ckptFile := some s } =
        Except.error InitError.formatError := by
  refine ⟨by decide, ?_⟩
  intro s hne hfind
  unfold resumeCounters
  simp [hne, hfind]

/-- Witness for C1 at the non-matching path `foo.txt`. -/
theorem C1_resume_parse_witness :
    ("foo.txt" : String) ≠ "" ∧ findIterEpoch "foo.txt" = none ∧
    resumeCounters
      { resume := true, hasCkptKey := true, ckptFile := some "foo.txt" } =
      Except.error InitError.formatError :=
  ⟨by decide, by decide, C1_resume_parse.2 "foo.txt" (by decide) (by decide)⟩

/-- C8 counterexample: with `resume` true and no `ckpt_file` key in the
`model` namespace — a configuration with no checkpoint file path given —
construction does not complete with `(0, 0)`: the direct index
`cfg['model']['ckpt_file']` raises `KeyError`. -/
theorem C8_counters_counterexample :
    resumeCounters { resume := true, hasCkptKey := false, ckptFile := none } =
      Except.error InitError.keyError ∧
    resumeCounters { resume := true, hasCkptKey := false, ckptFile := none } ≠
      Except.ok (0, 0) :=
  ⟨rfl, by decide⟩

/-- C8 amended: if `resume` is falsy the counters start at `(0, 0)`; and if
the `ckpt_file` key is present with a falsy value (`None` or the empty
string) the counters also start at `(0, 0)`.  When `resume` is true and the
`ckpt_file` key is absent, construction instead fails with `KeyError`. -/
theorem C8_counters_fresh :
    (∀ c : ResumeCfg, c.resume = false → resumeCounters c = Except.ok (0, 0)) ∧
    (∀ c : ResumeCfg, c.hasCkptKey = true →
      (c.ckptFile = none ∨ c.ckptFile = some "") →
      resumeCounters c = Except.ok (0, 0)) ∧
    (∀ c : ResumeCfg, c.resume = true → c.hasCkptKey = false →
      resumeCounters c = Except.error InitError.keyError) := by
  refine ⟨?_, ?_, ?_⟩
  · intro c h
    unfold resumeCounters
    simp [h]
  · intro c hkey hval
    unfold resumeCounters
    rcases hval with h | h <;> by_cases hr : c.resume <;> simp [hr, hkey, h]
  · intro c hr hkey
    unfold resumeCounters
    simp [hr, hkey]

/-- Witness for C8 at concrete configurations. -/
theorem C8_counters_fresh_witness :
    (ResumeCfg.resume ⟨false, true, some "x.ckpt"⟩ = false ∧
      resumeCounters ⟨false, true, some "x.ckpt"⟩ = Except.ok (0, 0)) ∧
    (ResumeCfg.hasCkptKey ⟨true, true, none⟩ = true ∧
      resumeCounters ⟨true, true, none⟩ = Except.ok (0, 0)) :=
  ⟨⟨rfl, C8_counters_fresh.1 ⟨false, true, some "x.ckpt"⟩ rfl⟩,
    ⟨rfl, C8_counters_fresh.2.1 ⟨true, true, none⟩ rfl (Or.inl rfl)⟩⟩

/-- C7 (code bug): with `train.lr_scheduler.name` present but not naming a
scheduler of `torch.optim.lr_scheduler`, construction does fail — but with
`KeyError('Name')` raised while the error-message f-string evaluates
`lrs["Name"]`, not with the intended ConfigError
(`RuntimeError('Learning rate scheduler not available')`).  With the name
absent, no scheduler is configured and the branch succeeds. -/
theorem C7_scheduler_config :
    configureScheduler (fun n => torchSchedulers.contains n)
        (some { name := some "NotAScheduler", nameCap := none }) =
      Except.error SchedError.keyErrorName ∧
    configureScheduler (fun n => torchSchedulers.contains n)
        (some { name := some "NotAScheduler", nameCap := none }) ≠
      Except.error SchedError.notAvailable ∧
    (∀ known : String → Bool,
      configureScheduler known (some { name := none, nameCap := none }) =
        Except.ok none) ∧
    (∀ known : String → Bool, configureScheduler known none = Except.ok none) := by
  refine ⟨by decide, by decide, ?_, ?_⟩
  · intro known
    rfl
  · intro known
    rfl

/-- C3 counterexample: in the spec's end-to-end scenario the epoch counter
at halt is not 0.  The constructor splits the 100 samples 90/10, so the
first epoch has only 9 batches; iteration 10 falls in the second epoch. -/
theorem C3_scenario_counterexample : (train scenarioParams 0 0).1 ≠ 0 := by
  rw [scenarioParams_eval]
  decide

/-- C3 amended: in the scenario (100 samples, batch size 10, the default
0.1 validation split giving 9 train batches per epoch,
`validate_every_iterations = 10`, `max_iterations = 10`,
`save_every_iterations = -1`), `train()` performs exactly one validation
call and zero checkpoint writes, and halts at the 10th batch overall —
which is the second epoch's first batch — with the epoch counter at 1. -/
theorem C3_scenario_run :
    (train scenarioParams 0 0).1 = 1 ∧
    (train scenarioParams 0 0).2.nValidations = 1 ∧
    (train scenarioParams 0 0).2.nSaves = 0 ∧
    (train scenarioParams 0 0).2.iteration = 10 ∧
    (train scenarioParams 0 0).2.nUpdates = 10 ∧
    scenarioParams.nBatches = 9 := by
  rw [scenarioParams_eval]
  refine ⟨by decide, by decide, by decide, by decide, by decide, by decide⟩

end SOpt

namespace SOpt

/-! ## Loop lemmas for the training state machine -/

/-- One batch increments `iteration` by exactly one. -/
theorem runBatch_iteration (p : TParams) (e : Nat) (s : BState) :
    (runBatch p e s).1.iteration = s.iteration + 1 := by
  simp only [runBatch]
  split_ifs <;> rfl

/-- One batch performs exactly one optimizer update. -/
theorem runBatch_nUpdates (p : TParams) (e : Nat) (s : BState) :
    (runBatch p e s).1.nUpdates = s.nUpdates + 1 := by
  simp only [runBatch]
  split_ifs <;> rfl

/-- The batch loop body never touches the full-pass counter. -/
theorem runBatch_nFullPasses (p : TParams) (e : Nat) (s : BState) :
    (runBatch p e s).1.nFullPasses = s.nFullPasses := by
  simp only [runBatch]
  split_ifs <;> rfl

/-- One batch appends exactly one metric row, carrying the seven columns,
the new iteration, the current epoch and the current `val_loss` sentinel
status. -/
theorem runBatch_log (p : TParams) (e : Nat) (s : BState) :
    (runBatch p e s).1.log =
      s.log ++ [{ cols := metricCols, iter := s.iteration + 1, epoch := e,
                  valLossIsNan := s.valLossIsNan }] := by
  simp only [runBatch]
  split_ifs <;> rfl

/-- The `stop_training` flag a batch reports is exactly the
`iteration_max <= iteration` check on the incremented counter. -/
theorem runBatch_stop (p : TParams) (e : Nat) (s : BState) :
    (runBatch p e s).2 = decide (p.iterationMax ≤ s.iteration + 1) := rfl

/-- Any batch-loop invariant preserved by one batch is preserved by the
whole batch loop. -/
theorem runBatches_inv (p : TParams) (e : Nat) (Inv : BState → Prop)
    (hb : ∀ s, Inv s → Inv (runBatch p e s).1) :
    ∀ b s, Inv s → Inv (runBatches p e b s).1 := by
  intro b
  induction b with
  | zero => intro s hs; exact hs
  | succ b ih =>
    intro s hs
    simp only [runBatches]
    cases hr : runBatch p e s with
    | mk t stop =>
      have ht : Inv t := by
        have h1 := hb s hs
        rw [hr] at h1
        exact h1
      cases stop
      · dsimp only
        rw [if_neg Bool.false_ne_true]
        exact ih t ht
      · dsimp only
        rw [if_pos rfl]
        exact ht

/-- Any state invariant preserved by one batch and by the ghost
full-pass/save counter bumps is preserved by the whole epoch loop. -/
theorem runEpochs_inv (p : TParams) (Inv : BState → Prop)
    (hb : ∀ e s, Inv s → Inv (runBatch p e s).1)
    (hfp : ∀ s : BState, Inv s → Inv { s with nFullPasses := s.nFullPasses + 1 })
    (hsv : ∀ s : BState, Inv s → Inv { s with nSaves := s.nSaves + 1 }) :
    ∀ f e s, Inv s → Inv (runEpochs p f e s).2 := by
  intro f
  induction f with
  | zero => intro e s hs; exact hs
  | succ f ih =>
    intro e s hs
    simp only [runEpochs]
    by_cases hc : s.iteration < p.iterationMax ∧ e < p.epochMax
    · rw [if_pos hc]
      cases hr : runBatches p e p.nBatches s with
      | mk t stop =>
        have ht : Inv t := by
          have h1 := runBatches_inv p e Inv (hb e) p.nBatches s hs
          rw [hr] at h1
          exact h1
        dsimp only
        have h1 : Inv (if t.nUpdates - s.nUpdates = p.nBatches then
            { t with nFullPasses := t.nFullPasses + 1 } else t) := by
          split
          · exact hfp t ht
          · exact ht
        cases stop
        · rw [if_neg Bool.false_ne_true]
          apply ih
          split
          · exact hsv _ h1
          · exact h1
        · rw [if_pos rfl]
          exact h1
    · rw [if_neg hc]
      exact hs

/-- With fuel at least `epochMax - epoch + 1`, adding more fuel does not
change the run: the fuel `train` supplies is never exhausted. -/
theorem runEpochs_fuel_stable (p : TParams) :
    ∀ f e s, p.epochMax ≤ e + f →
      runEpochs p (f + 1) e s = runEpochs p f e s := by
  intro f
  induction f with
  | zero =>
    intro e s h
    simp only [runEpochs]
    rw [if_neg]
    rintro ⟨-, h2⟩
    omega
  | succ f ih =>
    intro e s h
    conv_lhs => rw [runEpochs]
    conv_rhs => rw [runEpochs]
    by_cases hc : s.iteration < p.iterationMax ∧ e < p.epochMax
    · rw [if_pos hc, if_pos hc]
      cases hr : runBatches p e p.nBatches s with
      | mk t stop =>
        cases stop
        · dsimp only
          rw [if_neg Bool.false_ne_true, if_neg Bool.false_ne_true]
          exact ih (e + 1) _ (by omega)
        · dsimp only
          rw [if_pos rfl, if_pos rfl]
    · rw [if_neg hc, if_neg hc]

/-- If the loop entered below the iteration limit, the batch loop never
exceeds it. -/
theorem runBatches_iteration_le (p : TParams) (e : Nat) :
    ∀ b s, s.iteration < p.iterationMax →
      (runBatches p e b s).1.iteration ≤ p.iterationMax := by
  intro b
  induction b with
  | zero => intro s hs; exact Nat.le_of_lt hs
  | succ b ih =>
    intro s hs
    simp only [runBatches]
    cases hr : runBatch p e s with
    | mk t stop =>
      have hit : t.iteration = s.iteration + 1 := by
        have h1 := runBatch_iteration p e s
        rw [hr] at h1
        exact h1
      cases stop
      · dsimp only
        rw [if_neg Bool.false_ne_true]
        refine ih t ?_
        have hstop : false = decide (p.iterationMax ≤ s.iteration + 1) := by
          have h1 := runBatch_stop p e s
          rw [hr] at h1
          exact h1
        have h3 : ¬ p.iterationMax ≤ s.iteration + 1 := by
          intro hcon
          simp [hcon] at hstop
        omega
      · dsimp only
        rw [if_pos rfl]
        dsimp only
        omega

/-- When the batch loop reports a stop, the iteration limit is reached. -/
theorem runBatches_stop_ge (p : TParams) (e : Nat) :
    ∀ b s, (runBatches p e b s).2 = true →
      p.iterationMax ≤ (runBatches p e b s).1.iteration := by
  intro b
  induction b with
  | zero =>
    intro s hs
    exact absurd hs (by simp [runBatches])
  | succ b ih =>
    intro s
    simp only [runBatches]
    cases hr : runBatch p e s with
    | mk t stop =>
      have hit : t.iteration = s.iteration + 1 := by
        have h1 := runBatch_iteration p e s
        rw [hr] at h1
        exact h1
      cases stop
      · dsimp only
        rw [if_neg Bool.false_ne_true]
        exact ih t
      · dsimp only
        rw [if_pos rfl]
        intro _
        have hstop : true = decide (p.iterationMax ≤ s.iteration + 1) := by
          have h1 := runBatch_stop p e s
          rw [hr] at h1
          exact h1
        have h3 : p.iterationMax ≤ s.iteration + 1 :=
          of_decide_eq_true hstop.symm
        dsimp only
        omega

/-- The epoch loop never pushes `iteration` past `iteration_max`. -/
theorem runEpochs_iteration_le (p : TParams) :
    ∀ f e s, s.iteration ≤ p.iterationMax →
      (runEpochs p f e s).2.iteration ≤ p.iterationMax := by
  intro f
  induction f with
  | zero => intro e s hs; exact hs
  | succ f ih =>
    intro e s hs
    simp only [runEpochs]
    by_cases hc : s.iteration < p.iterationMax ∧ e < p.epochMax
    · rw [if_pos hc]
      cases hr : runBatches p e p.nBatches s with
      | mk t stop =>
        have ht : t.iteration ≤ p.iterationMax := by
          have h1 := runBatches_iteration_le p e p.nBatches s hc.1
          rw [hr] at h1
          exact h1
        dsimp only
        have h1 : (if t.nUpdates - s.nUpdates = p.nBatches then
            { t with nFullPasses := t.nFullPasses + 1 } else t).iteration ≤
            p.iterationMax := by
          split
          · exact ht
          · exact ht
        cases stop
        · rw [if_neg Bool.false_ne_true]
          apply ih
          split
          · next h2 =>
            revert h1
            split
            · intro h1; exact h1
            · intro h1; exact h1
          · next h2 =>
            revert h1
            split
            · intro h1; exact h1
            · intro h1; exact h1
        · rw [if_pos rfl]
          exact h1
    · rw [if_neg hc]
      exact hs

/-- The epoch loop performs at most one full pass per epoch increment:
from `nFullPasses ≤ epoch` and `epoch ≤ epoch_max` at entry, the final
full-pass count stays within `epoch_max`. -/
theorem runEpochs_fullPasses_le (p : TParams) :
    ∀ f e s, s.nFullPasses ≤ e → e ≤ p.epochMax →
      (runEpochs p f e s).2.nFullPasses ≤ p.epochMax := by
  intro f
  induction f with
  | zero => intro e s h1 h2; exact Nat.le_trans h1 h2
  | succ f ih =>
    intro e s h1 h2
    simp only [runEpochs]
    by_cases hc : s.iteration < p.iterationMax ∧ e < p.epochMax
    · rw [if_pos hc]
      cases hr : runBatches p e p.nBatches s with
      | mk t stop =>
        have ht : t.nFullPasses = s.nFullPasses := by
          have h3 := runBatches_inv p e (fun u => u.nFullPasses = s.nFullPasses)
            (fun u hu => by
              show (runBatch p e u).1.nFullPasses = s.nFullPasses
              rw [runBatch_nFullPasses]
              exact hu) p.nBatches s rfl
          rw [hr] at h3
          exact h3
        dsimp only
        have hfp : (if t.nUpdates - s.nUpdates = p.nBatches then
            { t with nFullPasses := t.nFullPasses + 1 } else t).nFullPasses ≤
            e + 1 := by
          split
          · dsimp only; omega
          · omega
        cases stop
        · rw [if_neg Bool.false_ne_true]
          refine ih (e + 1) _ ?_ (by omega)
          split
          · next h4 =>
            revert hfp
            split
            · intro hfp; exact hfp
            · intro hfp; exact hfp
          · next h4 =>
            revert hfp
            split
            · intro hfp; exact hfp
            · intro hfp; exact hfp
        · rw [if_pos rfl]
          dsimp only
          omega
    · rw [if_neg hc]
      exact Nat.le_trans h1 h2

/-- With adequate fuel, the loop only exits once a limit is reached: at
the final state, `iteration ≥ iteration_max` or `epoch ≥ epoch_max`. -/
theorem runEpochs_stopped (p : TParams) :
    ∀ f e s, p.epochMax ≤ e + f →
      p.iterationMax ≤ (runEpochs p f e s).2.iteration ∨
        p.epochMax ≤ (runEpochs p f e s).1 := by
  intro f
  induction f with
  | zero => intro e s h; right; exact h
  | succ f ih =>
    intro e s h
    simp only [runEpochs]
    by_cases hc : s.iteration < p.iterationMax ∧ e < p.epochMax
    · rw [if_pos hc]
      cases hr : runBatches p e p.nBatches s with
      | mk t stop =>
        cases stop
        · dsimp only
          rw [if_neg Bool.false_ne_true]
          exact ih (e + 1) _ (by omega)
        · dsimp only
          rw [if_pos rfl]
          left
          have h1 := runBatches_stop_ge p e p.nBatches s (by rw [hr])
          rw [hr] at h1
          dsimp only
          split
          · exact h1
          · exact h1
    · rw [if_neg hc]
      rcases Nat.lt_or_ge s.iteration p.iterationMax with h1 | h1
      · right
        have h2 : ¬ e < p.epochMax := fun h3 => hc ⟨h1, h3⟩
        omega
      · left
        exact h1

end SOpt

namespace SOpt

/-- The sentinel status of `val_loss` after one batch: cleared exactly when
this batch's iteration triggers a validation. -/
theorem runBatch_valLoss (p : TParams) (e : Nat) (s : BState) :
    (runBatch p e s).1.valLossIsNan =
      if 0 < p.validateEvery ∧
          ((s.iteration + 1 : Nat) : Int) % p.validateEvery = 0
      then false else s.valLossIsNan := by
  simp only [runBatch]
  split_ifs <;> rfl

/-- C2: with positive limits, `train()` performs at most `max_iterations`
optimizer updates and completes at most `max_epochs` full passes over the
training loader; and on exit a limit has been reached: final
`iteration ≥ iteration_max` or final `epoch ≥ epoch_max` (the
RUNNING-to-STOPPED transition, checked at the top of each epoch and after
each batch). -/
theorem C2_train_bounds (p : TParams) (hit : 0 < p.iterationMax)
    (hep : 0 < p.epochMax) :
    (train p 0 0).2.nUpdates ≤ p.iterationMax ∧
    (train p 0 0).2.nFullPasses ≤ p.epochMax ∧
    (p.iterationMax ≤ (train p 0 0).2.iteration ∨
      p.epochMax ≤ (train p 0 0).1) := by
  refine ⟨?_, ?_, ?_⟩
  · have hinv : (train p 0 0).2.nUpdates = (train p 0 0).2.iteration := by
      have h1 := runEpochs_inv p (fun s => s.nUpdates = s.iteration)
        (fun e s hs => by
          show (runBatch p e s).1.nUpdates = (runBatch p e s).1.iteration
          rw [runBatch_nUpdates, runBatch_iteration, hs])
        (fun s hs => hs) (fun s hs => hs)
        (p.epochMax + 1) 0 (initBState 0) rfl
      exact h1
    rw [hinv]
    exact runEpochs_iteration_le p (p.epochMax + 1) 0 (initBState 0)
      (Nat.zero_le _)
  · exact runEpochs_fullPasses_le p (p.epochMax + 1) 0 (initBState 0)
      (Nat.le_refl 0) (Nat.zero_le _)
  · exact runEpochs_stopped p (p.epochMax + 1) 0 (initBState 0) (by omega)

/-- Witness for C2 with limits `max_iterations = 3`, `max_epochs = 2` over
a two-batch loader. -/
theorem C2_train_bounds_witness :
    0 < (3 : Nat) ∧ 0 < (2 : Nat) ∧
    ((train ⟨3, 2, -1, -1, -1, 2, false⟩ 0 0).2.nUpdates ≤ 3 ∧
     (train ⟨3, 2, -1, -1, -1, 2, false⟩ 0 0).2.nFullPasses ≤ 2 ∧
     (3 ≤ (train ⟨3, 2, -1, -1, -1, 2, false⟩ 0 0).2.iteration ∨
       2 ≤ (train ⟨3, 2, -1, -1, -1, 2, false⟩ 0 0).1)) :=
  ⟨by decide, by decide,
    C2_train_bounds ⟨3, 2, -1, -1, -1, 2, false⟩ (by decide) (by decide)⟩

/-- C5: after any run of `train()` from fresh counters, the metric log
holds exactly one row per completed batch (its length equals the number of
optimizer updates), every row carries the seven declared columns, and
every row recorded at an iteration up to the first validation trigger (the
first multiple of `validate_every_iterations`) still carries the
not-a-number `val_loss` sentinel. -/
theorem C5_metric_log (p : TParams) :
    (train p 0 0).2.log.length = (train p 0 0).2.nUpdates ∧
    (∀ r ∈ (train p 0 0).2.log, r.cols = metricCols) ∧
    (∀ r ∈ (train p 0 0).2.log,
      (r.iter : Int) ≤ p.validateEvery → r.valLossIsNan = true) := by
  refine ⟨?_, ?_, ?_⟩
  · have h1 := runEpochs_inv p (fun s => s.log.length = s.nUpdates)
      (fun e s hs => by
        show (runBatch p e s).1.log.length = (runBatch p e s).1.nUpdates
        rw [runBatch_log, runBatch_nUpdates, List.length_append, hs]
        rfl)
      (fun s hs => hs) (fun s hs => hs)
      (p.epochMax + 1) 0 (initBState 0) rfl
    exact h1
  · have h1 := runEpochs_inv p (fun s => ∀ r ∈ s.log, r.cols = metricCols)
      (fun e s hs => by
        intro r hr
        rw [runBatch_log] at hr
        rcases List.mem_append.mp hr with h | h
        · exact hs r h
        · rw [List.mem_singleton.mp h])
      (fun s hs => hs) (fun s hs => hs)
      (p.epochMax + 1) 0 (initBState 0)
      (fun r hr => absurd hr (List.not_mem_nil r))
    exact h1
  · have h1 := runEpochs_inv p
      (fun s =>
        (∀ r ∈ s.log, (r.iter : Int) ≤ p.validateEvery →
          r.valLossIsNan = true) ∧
        (((s.iteration + 1 : Nat) : Int) ≤ p.validateEvery →
          s.valLossIsNan = true))
      (fun e s hs => by
        constructor
        · intro r hr
          rw [runBatch_log] at hr
          rcases List.mem_append.mp hr with h | h
          · exact hs.1 r h
          · rw [List.mem_singleton.mp h]
            intro hle
            exact hs.2 hle
        · rw [runBatch_iteration, runBatch_valLoss]
          intro hle
          split
          · next hcond =>
            exfalso
            have hdvd : p.validateEvery ∣ ((s.iteration + 1 : Nat) : Int) :=
              Int.dvd_of_emod_eq_zero hcond.2
            have hge : p.validateEvery ≤ ((s.iteration + 1 : Nat) : Int) :=
              Int.le_of_dvd (by omega) hdvd
            omega
          · exact hs.2 (by omega))
      (fun s hs => hs) (fun s hs => hs)
      (p.epochMax + 1) 0 (initBState 0)
      ⟨fun r hr => absurd hr (List.not_mem_nil r), fun _ => rfl⟩
    exact h1.1

/-- Witness for C5: the first row of a run with
`validate_every_iterations = 2` precedes the first trigger and carries the
sentinel. -/
theorem C5_metric_log_witness :
    (⟨metricCols, 1, 0, true⟩ : LogRow) ∈
      (train ⟨5, 3, 2, -1, -1, 2, false⟩ 0 0).2.log ∧
    ((⟨metricCols, 1, 0, true⟩ : LogRow).iter : Int) ≤ (2 : Int) ∧
    (⟨metricCols, 1, 0, true⟩ : LogRow).valLossIsNan = true :=
  ⟨by decide, by decide,
    (C5_metric_log ⟨5, 3, 2, -1, -1, 2, false⟩).2.2 ⟨metricCols, 1, 0, true⟩
      (by decide) (by decide)⟩

end SOpt

namespace SOpt

/-! ## Decimal formatting and the filename round trip -/

/-- Decimal digit characters decode to their value. -/
theorem digitVal_digitChar : ∀ d : Nat, d < 10 →
    digitVal (Nat.digitChar d) = d := by decide

/-- Decimal digit characters satisfy the digit class of the regex. -/
theorem isDigit_digitChar : ∀ d : Nat, d < 10 →
    (Nat.digitChar d).isDigit = true := by decide

/-- The fueled digit writer is accumulator-style: with fuel above `n`, it
prepends the digits of `n`. -/
theorem natDigitsCore_eq (n : Nat) :
    ∀ f acc, n < f → natDigitsCore f n acc = natDigits n ++ acc := by
  induction n using Nat.strong_induction_on with
  | _ n ih =>
    intro f acc hf
    match f with
    | 0 => exact absurd hf (Nat.not_lt_zero n)
    | f + 1 =>
      by_cases h10 : n < 10
      · simp only [natDigitsCore, if_pos h10, natDigits, List.singleton_append]
      · have h1 : n / 10 < n := Nat.div_lt_self (by omega) (by omega)
        simp only [natDigitsCore, if_neg h10]
        rw [ih (n / 10) h1 f _ (by omega)]
        conv_rhs => rw [natDigits]
        rw [show natDigitsCore (n + 1) n [] =
            natDigitsCore n (n / 10) [Nat.digitChar (n % 10)] from by
          simp only [natDigitsCore]
          rw [if_neg h10]]
        rw [ih (n / 10) h1 n _ (by omega), List.append_assoc, List.singleton_append]

/-- Below ten the decimal expansion is one digit. -/
theorem natDigits_small (n : Nat) (h : n < 10) :
    natDigits n = [Nat.digitChar n] := by
  unfold natDigits
  simp only [natDigitsCore, if_pos h]

/-- From ten on, the decimal expansion ends with the last digit. -/
theorem natDigits_split (n : Nat) (h : 10 ≤ n) :
    natDigits n = natDigits (n / 10) ++ [Nat.digitChar (n % 10)] := by
  conv_lhs => rw [natDigits]
  rw [show natDigitsCore (n + 1) n [] =
      natDigitsCore n (n / 10) [Nat.digitChar (n % 10)] from by
    simp only [natDigitsCore]
    rw [if_neg (by omega)]]
  exact natDigitsCore_eq (n / 10) n _ (by omega)

/-- Appending one character multiplies the decoded value by ten and adds
the character's value. -/
theorem strValNat_concat (l : List Char) (c : Char) :
    strValNat (l ++ [c]) = strValNat l * 10 + digitVal c := by
  unfold strValNat
  rw [List.foldl_append]
  rfl

/-- Python `int()` of the decimal expansion gives the number back. -/
theorem strValNat_natDigits (n : Nat) : strValNat (natDigits n) = n := by
  induction n using Nat.strong_induction_on with
  | _ n ih =>
    by_cases h10 : n < 10
    · rw [natDigits_small n h10]
      show 0 * 10 + digitVal (Nat.digitChar n) = n
      rw [digitVal_digitChar n h10]
      omega
    · rw [natDigits_split n (by omega), strValNat_concat,
        ih (n / 10) (Nat.div_lt_self (by omega) (by omega)),
        digitVal_digitChar (n % 10) (Nat.mod_lt n (by omega))]
      omega

/-- Every character of the decimal expansion is a digit. -/
theorem natDigits_isDigit (n : Nat) : ∀ c ∈ natDigits n, c.isDigit = true := by
  induction n using Nat.strong_induction_on with
  | _ n ih =>
    by_cases h10 : n < 10
    · rw [natDigits_small n h10]
      intro c hc
      rw [List.mem_singleton.mp hc]
      exact isDigit_digitChar n h10
    · rw [natDigits_split n (by omega)]
      intro c hc
      rcases List.mem_append.mp hc with h | h
      · exact ih (n / 10) (Nat.div_lt_self (by omega) (by omega)) c h
      · rw [List.mem_singleton.mp h]
        exact isDigit_digitChar (n % 10) (Nat.mod_lt n (by omega))

/-- Numbers below `10 ^ w` need at most `w` decimal digits. -/
theorem natDigits_length_le (w : Nat) : ∀ n, n < 10 ^ w → 0 < w →
    (natDigits n).length ≤ w := by
  induction w with
  | zero => intro n h hw; omega
  | succ w ih =>
    intro n h hw
    by_cases h10 : n < 10
    · rw [natDigits_small n h10]
      simp
    · have hw0 : 0 < w := by
        rcases Nat.eq_zero_or_pos w with h0 | h0
        · subst h0
          simp at h
          omega
        · exact h0
      have hdiv : n / 10 < 10 ^ w := by
        rw [Nat.div_lt_iff_lt_mul (by omega : 0 < 10)]
        calc n < 10 ^ (w + 1) := h
          _ = 10 ^ w * 10 := by ring
      rw [natDigits_split n (by omega), List.length_append]
      have h2 := ih (n / 10) hdiv hw0
      simp only [List.length_singleton]
      omega

/-- Zero-padding to width `w` has length exactly `w` when `n < 10 ^ w`. -/
theorem fmtPad_length (w n : Nat) (h : n < 10 ^ w) (hw : 0 < w) :
    (fmtPad w n).length = w := by
  unfold fmtPad
  rw [List.length_append, List.length_replicate]
  have h1 := natDigits_length_le w n h hw
  omega

/-- Every character of the zero-padded field is a digit. -/
theorem fmtPad_isDigit (w n : Nat) : ∀ c ∈ fmtPad w n, c.isDigit = true := by
  intro c hc
  unfold fmtPad at hc
  rcases List.mem_append.mp hc with h | h
  · rw [List.eq_of_mem_replicate h]
    decide
  · exact natDigits_isDigit n c h

/-- Python `int()` ignores the zero padding: the padded field decodes to
`n`. -/
theorem strValNat_fmtPad (w n : Nat) : strValNat (fmtPad w n) = n := by
  unfold fmtPad strValNat
  rw [List.foldl_append]
  have hz : List.foldl (fun a c => a * 10 + digitVal c) 0
      (List.replicate (w - (natDigits n).length) '0') = 0 := by
    generalize w - (natDigits n).length = k
    induction k with
    | zero => rfl
    | succ k ihk =>
      rw [List.replicate_succ, List.foldl_cons]
      exact ihk
  rw [hz]
  exact strValNat_natDigits n

/-- Matching a literal prefix strips exactly that prefix. -/
theorem dropLit_append (pre l : List Char) : dropLit pre (pre ++ l) = some l := by
  induction pre with
  | nil => rfl
  | cons c cs ih =>
    simp only [List.cons_append, dropLit, if_pos rfl]
    exact ih

/-- The greedy digit scan splits a digit run followed by a non-digit. -/
theorem takeDigits_append (ds rest : List Char)
    (hds : ∀ c ∈ ds, c.isDigit = true)
    (hrest : ∀ c, rest.head? = some c → c.isDigit = false) :
    takeDigits (ds ++ rest) = (ds, rest) := by
  induction ds with
  | nil =>
    rw [List.nil_append]
    cases rest with
    | nil => rfl
    | cons c cs =>
      have hc : c.isDigit = false := hrest c rfl
      simp only [takeDigits]
      rw [if_neg (by rw [hc]; exact Bool.false_ne_true)]
  | cons d ds ih =>
    have hd : d.isDigit = true := hds d (List.mem_cons_self d ds)
    simp only [List.cons_append, takeDigits]
    rw [if_pos hd]
    simp only [List.append_eq]
    rw [ih (fun c hc => hds c (List.mem_cons_of_mem d hc))]

end SOpt

namespace SOpt

/-- The source regex matches the checkpoint filename at its head, greedily
reading back both padded fields. -/
theorem matchAt_ckptFilename (i e : Nat) (hi : i < 10 ^ 6) (he : e < 10 ^ 4) :
    matchAt true (ckptFilenameChars i e) = some (i, e) := by
  have h6len : (fmtPad 6 i).length = 6 := fmtPad_length 6 i hi (by omega)
  have h4len : (fmtPad 4 e).length = 4 := fmtPad_length 4 e he (by omega)
  have htd1 : takeDigits (fmtPad 6 i ++ (litEpoch ++ (fmtPad 4 e ++ litDotCkpt))) =
      (fmtPad 6 i, litEpoch ++ (fmtPad 4 e ++ litDotCkpt)) :=
    takeDigits_append _ _ (fmtPad_isDigit 6 i)
      (fun c hc => by rw [← Option.some.inj hc]; rfl)
  have htd2 : takeDigits (fmtPad 4 e ++ litDotCkpt) = (fmtPad 4 e, litDotCkpt) :=
    takeDigits_append _ _ (fmtPad_isDigit 4 e)
      (fun c hc => by rw [← Option.some.inj hc]; rfl)
  have h6e : (fmtPad 6 i).isEmpty = false := by
    rw [List.isEmpty_eq_false]
    intro hnil
    rw [hnil] at h6len
    simp at h6len
  have h4e : (fmtPad 4 e).isEmpty = false := by
    rw [List.isEmpty_eq_false]
    intro hnil
    rw [hnil] at h4len
    simp at h4len
  have hdrop : (fmtPad 4 e).drop 4 = [] := by
    have h1 := List.drop_length (fmtPad 4 e)
    rw [h4len] at h1
    exact h1
  have htake : (fmtPad 4 e).take 4 = fmtPad 4 e := by
    have h1 := List.take_length (fmtPad 4 e)
    rw [h4len] at h1
    exact h1
  have hgl : group2Len true (fmtPad 4 e) litDotCkpt (fmtPad 4 e).length =
      some 4 := by
    rw [h4len]
    show group2Len true (fmtPad 4 e) litDotCkpt (3 + 1) = some 4
    simp only [group2Len]
    rw [show (3 : Nat) + 1 = 4 from rfl, hdrop]
    rw [if_pos (by rfl)]
  unfold ckptFilenameChars matchAt
  simp only [List.append_assoc, dropLit_append, htd1, htd2, h6e, h4e, hgl,
    Bool.false_eq_true, if_false, htake, strValNat_fmtPad]

/-- C4: the checkpoint filename contract is a round trip.  For
`iteration < 10^6` and `epoch < 10^4`, the filename `save()` writes embeds
the counters as 6- and 4-digit zero-padded decimal fields in the form
`iteration-NNNNNN-epoch-NNNN.ckpt`, and the constructor's resume parsing of
that filename recovers exactly `(iteration, epoch)`. -/
theorem C4_ckpt_roundtrip (i e : Nat) (hi : i < 10 ^ 6) (he : e < 10 ^ 4) :
    (fmtPad 6 i).length = 6 ∧ (∀ c ∈ fmtPad 6 i, c.isDigit = true) ∧
    strValNat (fmtPad 6 i) = i ∧
    (fmtPad 4 e).length = 4 ∧ (∀ c ∈ fmtPad 4 e, c.isDigit = true) ∧
    strValNat (fmtPad 4 e) = e ∧
    findIterEpoch (String.mk (ckptFilenameChars i e)) = some (i, e) := by
  refine ⟨fmtPad_length 6 i hi (by omega), fmtPad_isDigit 6 i,
    strValNat_fmtPad 6 i, fmtPad_length 4 e he (by omega), fmtPad_isDigit 4 e,
    strValNat_fmtPad 4 e, ?_⟩
  show reSearch true (ckptFilenameChars i e) = some (i, e)
  have h := matchAt_ckptFilename i e hi he
  rw [show ckptFilenameChars i e =
      'i' :: (['t', 'e', 'r', 'a', 't', 'i', 'o', 'n', '-'] ++
        (fmtPad 6 i ++ (litEpoch ++ (fmtPad 4 e ++ litDotCkpt)))) from by
    unfold ckptFilenameChars
    simp only [List.append_assoc]
    rfl] at h ⊢
  rw [reSearch, h]

/-- Witness for C4 at `iteration = 123`, `epoch = 4`: the written filename
is `iteration-000123-epoch-0004.ckpt` and it parses back. -/
theorem C4_ckpt_roundtrip_witness :
    (123 : Nat) < 10 ^ 6 ∧ (4 : Nat) < 10 ^ 4 ∧
    String.mk (ckptFilenameChars 123 4) = "iteration-000123-epoch-0004.ckpt" ∧
    strValNat (fmtPad 6 123) = 123 ∧
    findIterEpoch (String.mk (ckptFilenameChars 123 4)) = some (123, 4) := by
  have h := C4_ckpt_roundtrip 123 4 (by decide) (by decide)
  exact ⟨by decide, by decide, by decide, h.2.2.1, h.2.2.2.2.2.2⟩

end SOpt
